import Mathlib

/-!
Shallow embedding of `src/render.rs` (dkregistry-rs layer rendering).

The source unpacks an ordered list of gzip-compressed tar layers onto a
target directory and then resolves whiteout markers by deleting the
shadowed paths.  We embed:

* Rust `Path`/`PathBuf` values as `RPath` (an `absolute` flag plus a list
  of components).  Entry paths coming out of the tar archive are taken in
  Rust's component-normal form: no empty components and no interior `"."`
  components (Rust's `Components` iterator already erases those at parse
  time); the only `"."` component the algorithm itself introduces is the
  `"./"` prefix built in the whiteout resolver, which we model explicitly.
* The host filesystem as a rooted tree `FNode`; the operating system's
  path resolution (`"."` skip, `".."` to parent) as `resolveComps`.
* A layer as `Option (List Entry)`: `none` models a byte buffer whose
  gzip decoding fails, `some es` a well-formed archive with entry list
  `es` in stored order.
* Each run returns a `Step`: the final filesystem, the ordered trace of
  filesystem effects (one `write` per extracted entry, one `remove` per
  `remove_dir_all` call that succeeded), and an optional error, `none`
  meaning `Ok(())`.

External collaborators (the `tar` and `libflate` crates and
`std::fs::remove_dir_all`) are not part of `src/`; they are modelled from
the spec where it describes them, as noted on each definition.
-/

/-- A Rust path: `absolute` mirrors `Path::is_absolute` (a leading `/`),
`components` the component list. -/
structure RPath where
  absolute : Bool
  components : List String
deriving Repr, DecidableEq

/-- Rust `Path::file_name`: the last component, unless it is `..` (or the path
is empty / only `.`), in which case Rust returns `None`. -/
def RPath.fileName (p : RPath) : Option String :=
  match p.components.getLast? with
  | some c => if c = ".." ∨ c = "." then none else some c
  | none => none

/-- Rust `Path::parent`: drop the last component; `None` on the root `/` and on
the empty path. -/
def RPath.parent (p : RPath) : Option RPath :=
  match p.components with
  | [] => none
  | _ :: _ => some ⟨p.absolute, p.components.dropLast⟩

/-- Rust `Path::join` with a path argument: an absolute argument replaces the
receiver, otherwise the components are appended. -/
def RPath.join (p q : RPath) : RPath :=
  if q.absolute then q else ⟨p.absolute, p.components ++ q.components⟩

/-- Rust `Path::join` with a single file-name component (never contains `/`):
appending the empty string leaves the path unchanged, as in Rust. -/
def RPath.push (p : RPath) (name : String) : RPath :=
  if name = "" then p else ⟨p.absolute, p.components ++ [name]⟩

/-- Rust `str::starts_with` on strings, computed on the character lists (for
valid UTF-8 a byte prefix by a whole string is exactly a character
prefix, so this matches Rust's byte-level check). -/
def strStartsWith (s pre : String) : Bool :=
  pre.toList.isPrefixOf s.toList

/-- Drop the first `n` characters of a string. -/
def strDrop (s : String) (n : Nat) : String :=
  ⟨s.toList.drop n⟩

/-- Fuel-driven core of `str::trim_start_matches`. -/
def trimStartAux : Nat → String → String → String
  | 0, _, s => s
  | Nat.succ n, pat, s =>
    if pat ≠ "" ∧ strStartsWith s pat then
      trimStartAux n pat (strDrop s pat.length)
    else s

/-- Rust `str::trim_start_matches pat s`: repeatedly removes every leading
occurrence of `pat` from `s` (Rust removes the matching prefix
*repeatedly*, not just once). -/
def trimStartMatches (pat s : String) : String :=
  trimStartAux s.length pat s

/-- Operating-system path resolution on a component list rooted at `/`:
`"."` is skipped, `".."` pops the last resolved component (staying at the
root when there is none), every other component is appended. -/
def resolveComps (cs : List String) : List String :=
  cs.foldl
    (fun acc c =>
      if c = "." then acc
      else if c = ".." then acc.dropLast
      else acc ++ [c])
    []

/-- Metadata recorded on an extracted file: the mode bits actually applied
(`none` when permissions are not preserved) and the extended attributes
actually applied (empty when xattr unpacking is off). -/
structure FMeta where
  mode : Option Nat
  xattrs : List (String × String)
deriving Repr, DecidableEq

/-- A filesystem node: a regular file with content and applied metadata,
or a directory with named children in creation order. -/
inductive FNode where
  | file (content : String) (meta : FMeta)
  | dir (children : List (String × FNode))
deriving Repr

/-- Look a (resolved) component path up in a filesystem tree. -/
def FNode.lookup : FNode → List String → Option FNode
  | n, [] => some n
  | FNode.dir cs, c :: rest =>
    match cs.find? (fun q => q.1 = c) with
    | some q => FNode.lookup q.2 rest
    | none => none
  | FNode.file _ _, _ :: _ => none

/-- Replace the child named `c` (or append it when absent), keeping the
existing order. -/
def setChild (cs : List (String × FNode)) (c : String) (n : FNode) :
    List (String × FNode) :=
  if cs.any (fun q => q.1 = c) then
    cs.map (fun q => if q.1 = c then (c, n) else q)
  else cs ++ [(c, n)]

/-- Write a node at a (resolved) component path, creating intermediate
directories as needed (a file standing in the way is replaced by a fresh
directory, as an archive extractor would do). -/
def FNode.insert : FNode → List String → FNode → FNode
  | _, [], nw => nw
  | FNode.dir cs, c :: rest, nw =>
    let child := match cs.find? (fun q => q.1 = c) with
      | some q => q.2
      | none => FNode.dir []
    FNode.dir (setChild cs c (FNode.insert child rest nw))
  | FNode.file _ _, c :: rest, nw =>
    FNode.dir [(c, FNode.insert (FNode.dir []) rest nw)]

/-- Modelled from the spec: `std::fs::remove_dir_all` (standard library,
outside `src/`), as the spec describes it — "Recursively remove both
paths and everything beneath them", failing on "removal of a non-existent
path".  Returns the updated tree, or `none` when the path does not exist
(removing the root itself is also a failure). -/
def FNode.removeAll : FNode → List String → Option FNode
  | _, [] => none
  | FNode.dir cs, [c] =>
    match cs.find? (fun q => q.1 = c) with
    | some _ => some (FNode.dir (cs.filter (fun q => ¬ q.1 = c)))
    | none => none
  | FNode.dir cs, c :: rest =>
    match cs.find? (fun q => q.1 = c) with
    | some q =>
      match FNode.removeAll q.2 rest with
      | some n' => some (FNode.dir (setChild cs c n'))
      | none => none
    | none => none
  | FNode.file _ _, _ :: _ => none

/-- The error enum `RenderError` of `src/render.rs`: a wrong target path
(carrying the offending path) or a wrapped I/O error. -/
inductive RenderError where
  | wrongTargetPath (p : RPath)
  | io (msg : String)
deriving Repr, DecidableEq

/-- The struct `UnpackOptions` of `src/render.rs`: two independent switches,
`#[derive(Default)]` makes both start out `false`. -/
structure UnpackOptions where
  preserve_permissions : Bool
  unpack_xattrs : Bool
deriving Repr, DecidableEq

/-- Builder entry `UnpackOptions::new`, which is `Self::default()`. -/
def UnpackOptions.new : UnpackOptions :=
  ⟨false, false⟩

/-- Builder method `UnpackOptions::preserve_permissions`. -/
def UnpackOptions.with_preserve_permissions (o : UnpackOptions) (val : Bool) :
    UnpackOptions :=
  { o with preserve_permissions := val }

/-- Builder method `UnpackOptions::unpack_xattrs`. -/
def UnpackOptions.with_unpack_xattrs (o : UnpackOptions) (val : Bool) :
    UnpackOptions :=
  { o with unpack_xattrs := val }

/-- The payload of one tar entry. -/
inductive EntryData where
  | file (content : String)
  | dir
deriving Repr, DecidableEq

/-- One archive entry: its stored path plus content and metadata. -/
structure Entry where
  path : RPath
  data : EntryData
  mode : Nat
  xattrs : List (String × String)
deriving Repr

/-- A layer: `none` models bytes whose gzip decoding fails, `some es` a
well-formed gzip-compressed tar archive holding entries `es` in stored
order. -/
abbrev Layer := Option (List Entry)

/-- One observable filesystem effect: a write of an extracted entry, or a
successful recursive removal. Paths are recorded as computed (unresolved). -/
inductive Effect where
  | write (p : RPath)
  | remove (p : RPath)
deriving Repr, DecidableEq

/-- The path an effect acts on. -/
def Effect.path : Effect → RPath
  | Effect.write p => p
  | Effect.remove p => p

/-- Outcome of (part of) a run: final filesystem, ordered effect trace,
and `some e` when the run stopped at error `e` (`none` is `Ok(())`). -/
structure Step where
  fs : FNode
  trace : List Effect
  err : Option RenderError
deriving Repr

/-- Modelled from the spec: one entry of `Archive::unpack` (tar crate,
outside `src/`) — "write each to `target_dir` joined with the entry's
relative path, creating intermediate directories as needed" and, "when
enabled, the original mode bits … and extended attributes". -/
def extractEntry (opts : UnpackOptions) (target : RPath) (fs : FNode)
    (e : Entry) : FNode × List Effect :=
  let p := target.join e.path
  let node := match e.data with
    | EntryData.file content =>
      FNode.file content
        ⟨if opts.preserve_permissions then some e.mode else none,
         if opts.unpack_xattrs then e.xattrs else []⟩
    | EntryData.dir => FNode.dir []
  (fs.insert (resolveComps p.components) node, [Effect.write p])

/-- Modelled from the spec: `Archive::unpack` over a whole layer — "walk
archive entries in file order" writing each one. -/
def extractLayer (opts : UnpackOptions) (target : RPath) :
    List Entry → FNode → FNode × List Effect
  | [], fs => (fs, [])
  | e :: rest, fs =>
    let s1 := extractEntry opts target fs e
    let s2 := extractLayer opts target rest s1.1
    (s2.1, s1.2 ++ s2.2)

/-- The two absolute removal paths the whiteout resolver computes for an
entry whose file name is `fname` (src/render.rs): `rel_parent` is
`"./" + parent` (with `parent` defaulting to `/` when absent), the first
path appends the shadowed name — `fname` with every leading `.wh.`
occurrence stripped by `trim_start_matches` — the second the marker file
name itself. -/
def whiteoutPaths (target : RPath) (e : Entry) (fname : String) :
    RPath × RPath :=
  let parent := e.path.parent.getD ⟨true, []⟩
  let rel_parent : RPath := ⟨false, "." :: parent.components⟩
  let real_name := trimStartMatches ".wh." fname
  ((target.join rel_parent).push real_name,
   (target.join rel_parent).push fname)

/-- The whiteout resolver body of `_unpack` (src/render.rs, the per-entry
part of the "Clean whiteouts" loop): inspect the file name; ignore the
opaque marker `.wh..wh..opq`; for a `.wh.`-prefixed name, compute the two
paths of `whiteoutPaths` and `remove_dir_all` first the real path and
then the whiteout placeholder. -/
def resolveEntry (target : RPath) (fs : FNode) (e : Entry) : Step :=
  match e.path.fileName with
  | none => ⟨fs, [], none⟩
  | some fname =>
    if fname = ".wh..wh..opq" then ⟨fs, [], none⟩
    else if strStartsWith fname ".wh." then
      let abs_real_path := (whiteoutPaths target e fname).1
      match fs.removeAll (resolveComps abs_real_path.components) with
      | none => ⟨fs, [], some (RenderError.io "remove_dir_all")⟩
      | some fs1 =>
        let abs_wh_path := (whiteoutPaths target e fname).2
        match fs1.removeAll (resolveComps abs_wh_path.components) with
        | none =>
          ⟨fs1, [Effect.remove abs_real_path],
            some (RenderError.io "remove_dir_all")⟩
        | some fs2 =>
          ⟨fs2, [Effect.remove abs_real_path, Effect.remove abs_wh_path],
            none⟩
    else ⟨fs, [], none⟩

/-- The "Clean whiteouts" loop of `_unpack`: entries in stored order, the
first error aborting the loop. -/
def resolveEntries (target : RPath) : List Entry → FNode → Step
  | [], fs => ⟨fs, [], none⟩
  | e :: rest, fs =>
    let s := resolveEntry target fs e
    match s.err with
    | some er => ⟨s.fs, s.trace, some er⟩
    | none =>
      let s2 := resolveEntries target rest s.fs
      ⟨s2.fs, s.trace ++ s2.trace, s2.err⟩

/-- One iteration of the layer loop of `_unpack`: decode the layer, run
the extractor over the whole archive, then re-decode and run the whiteout
resolver over the same entries. -/
def applyLayer (opts : UnpackOptions) (target : RPath) (l : Layer)
    (fs : FNode) : Step :=
  match l with
  | none => ⟨fs, [], some (RenderError.io "gzip")⟩
  | some entries =>
    let ex := extractLayer opts target entries fs
    let s := resolveEntries target entries ex.1
    ⟨s.fs, ex.2 ++ s.trace, s.err⟩

/-- The layer loop of `_unpack`: layers in input order, the first error
aborting the whole run. -/
def unpackGo (opts : UnpackOptions) (target : RPath) :
    List Layer → FNode → Step
  | [], fs => ⟨fs, [], none⟩
  | l :: rest, fs =>
    let s := applyLayer opts target l fs
    match s.err with
    | some er => ⟨s.fs, s.trace, some er⟩
    | none =>
      let s2 := unpackGo opts target rest s.fs
      ⟨s2.fs, s.trace ++ s2.trace, s2.err⟩

/-- Rust `Path::exists` of the target against the host tree. -/
def existsAt (fs : FNode) (p : RPath) : Bool :=
  (fs.lookup (resolveComps p.components)).isSome

/-- Rust `Path::is_dir` of the target against the host tree. -/
def isDirAt (fs : FNode) (p : RPath) : Bool :=
  match fs.lookup (resolveComps p.components) with
  | some (FNode.dir _) => true
  | _ => false

/-- The function `_unpack` of `src/render.rs`: validate the target path
(absolute ∧ exists ∧ is-directory), then run the layer loop. -/
def _unpack (layers : List Layer) (target : RPath) (opts : UnpackOptions)
    (fs : FNode) : Step :=
  if ¬ (target.absolute && existsAt fs target && isDirAt fs target) then
    ⟨fs, [], some (RenderError.wrongTargetPath target)⟩
  else unpackGo opts target layers fs

/-- The function `unpack` of `src/render.rs`: `_unpack` with
`UnpackOptions::new().preserve_permissions(true).unpack_xattrs(true)`. -/
def unpack (layers : List Layer) (target : RPath) (fs : FNode) : Step :=
  let options :=
    (UnpackOptions.new.with_preserve_permissions true).with_unpack_xattrs true
  _unpack layers target options fs

/-- The function `unpack_with_options` of `src/render.rs`: `_unpack` with the caller's
options. -/
def unpack_with_options (layers : List Layer) (target : RPath)
    (options : UnpackOptions) (fs : FNode) : Step :=
  _unpack layers target options fs

/-- The check `leadsWith pre l` decides whether `pre` is an initial segment of `l`. -/
def leadsWith : List String → List String → Bool
  | [], _ => true
  | _ :: _, [] => false
  | a :: as, b :: bs => a = b && leadsWith as bs

/-- Containment of an effect path in the target directory, judged after
operating-system resolution of `.` and `..`. -/
def underTarget (target p : RPath) : Bool :=
  (p.absolute == target.absolute) &&
  leadsWith (resolveComps target.components) (resolveComps p.components)

/-- An entry that cannot drive an effect outside the target: its stored
path is relative and made of plain components (no `..`, no `.`) none of
which strips (via `trim_start_matches ".wh."`) to `..`. -/
def safeEntry (e : Entry) : Bool :=
  !e.path.absolute &&
  e.path.components.all
    (fun c =>
      !(c = "..") && !(c = ".") && !(trimStartMatches ".wh." c = ".."))

/-- A layer all of whose entries are safe (a undecodable layer produces
no effect at all, so it is vacuously safe). -/
def safeLayer (l : Layer) : Bool :=
  match l with
  | none => true
  | some es => es.all safeEntry

/-- Formalisation of the spec's control-flow contract: layers in input
order; for each decodable layer the whole extraction trace comes first,
then the whole whiteout-resolution trace of the same layer against the
filesystem the extractor left, and only then any effect of later layers.
`PhasedRun opts target layers fs tr fs'` reads: starting from `fs`, the
contract admits exactly the trace `tr` and final filesystem `fs'`. -/
inductive PhasedRun (opts : UnpackOptions) (target : RPath) :
    List Layer → FNode → List Effect → FNode → Prop where
  | nil (fs : FNode) : PhasedRun opts target [] fs [] fs
  | cons (entries : List Entry) (rest : List Layer) (fs fs2 fs3 : FNode)
      (re tl : List Effect)
      (hre : resolveEntries target entries
          (extractLayer opts target entries fs).1 = ⟨fs2, re, none⟩)
      (htl : PhasedRun opts target rest fs2 tl fs3) :
      PhasedRun opts target (some entries :: rest) fs
        (((extractLayer opts target entries fs).2 ++ re) ++ tl) fs3

/-! ## Theorems -/

/-- C8: `unpack` behaves identically to `unpack_with_options` with
options built as `new().preserve_permissions(true).unpack_xattrs(true)`;
the builder starts from the derived default (both switches `false`) and
each switch is toggled independently, leaving the other untouched. -/
theorem c8_unpack_defaults_and_builder :
    (∀ (layers : List Layer) (target : RPath) (fs : FNode),
      unpack layers target fs =
        unpack_with_options layers target
          ((UnpackOptions.new.with_preserve_permissions true).with_unpack_xattrs
            true) fs) ∧
    UnpackOptions.new = ⟨false, false⟩ ∧
    (∀ (o : UnpackOptions) (b : Bool),
      (o.with_preserve_permissions b).preserve_permissions = b ∧
      (o.with_preserve_permissions b).unpack_xattrs = o.unpack_xattrs) ∧
    (∀ (o : UnpackOptions) (b : Bool),
      (o.with_unpack_xattrs b).unpack_xattrs = b ∧
      (o.with_unpack_xattrs b).preserve_permissions = o.preserve_permissions) :=
  ⟨fun _ _ _ => rfl, rfl, fun _ _ => ⟨rfl, rfl⟩, fun _ _ => ⟨rfl, rfl⟩⟩

/-- C2: whenever the target path fails the absolute/exists/is-directory
check, `_unpack` — and with it both `unpack` and `unpack_with_options` —
returns the invalid-target-path error carrying the offending path, with
an empty effect trace and the filesystem untouched. -/
theorem c2_invalid_target (layers : List Layer) (target : RPath)
    (opts : UnpackOptions) (fs : FNode)
    (h : (target.absolute && existsAt fs target && isDirAt fs target) = false) :
    _unpack layers target opts fs =
      ⟨fs, [], some (RenderError.wrongTargetPath target)⟩ ∧
    unpack layers target fs =
      ⟨fs, [], some (RenderError.wrongTargetPath target)⟩ ∧
    unpack_with_options layers target opts fs =
      ⟨fs, [], some (RenderError.wrongTargetPath target)⟩ := by
  unfold unpack unpack_with_options _unpack
  simp [h]

/-- Witness for C2 at a relative target path. -/
theorem c2_invalid_target_witness :
    _unpack [] ⟨false, ["t"]⟩ UnpackOptions.new (FNode.dir []) =
      ⟨FNode.dir [], [],
        some (RenderError.wrongTargetPath ⟨false, ["t"]⟩)⟩ ∧
    unpack [] ⟨false, ["t"]⟩ (FNode.dir []) =
      ⟨FNode.dir [], [],
        some (RenderError.wrongTargetPath ⟨false, ["t"]⟩)⟩ ∧
    unpack_with_options [] ⟨false, ["t"]⟩ UnpackOptions.new (FNode.dir []) =
      ⟨FNode.dir [], [],
        some (RenderError.wrongTargetPath ⟨false, ["t"]⟩)⟩ :=
  c2_invalid_target [] ⟨false, ["t"]⟩ UnpackOptions.new (FNode.dir []) rfl

/-- C9: with a valid target and no layers, both entry points succeed,
produce no effect and leave the filesystem exactly as it was. -/
theorem c9_empty_layers_noop (target : RPath) (opts : UnpackOptions)
    (fs : FNode)
    (h : (target.absolute && existsAt fs target && isDirAt fs target) = true) :
    _unpack [] target opts fs = ⟨fs, [], none⟩ ∧
    unpack [] target fs = ⟨fs, [], none⟩ ∧
    unpack_with_options [] target opts fs = ⟨fs, [], none⟩ := by
  unfold unpack unpack_with_options _unpack
  simp [h, unpackGo]

/-- Witness for C9 on a host tree holding an empty target directory. -/
theorem c9_empty_layers_noop_witness :
    _unpack [] ⟨true, ["t"]⟩ UnpackOptions.new
        (FNode.dir [("t", FNode.dir [])]) =
      ⟨FNode.dir [("t", FNode.dir [])], [], none⟩ ∧
    unpack [] ⟨true, ["t"]⟩ (FNode.dir [("t", FNode.dir [])]) =
      ⟨FNode.dir [("t", FNode.dir [])], [], none⟩ ∧
    unpack_with_options [] ⟨true, ["t"]⟩ UnpackOptions.new
        (FNode.dir [("t", FNode.dir [])]) =
      ⟨FNode.dir [("t", FNode.dir [])], [], none⟩ :=
  c9_empty_layers_noop ⟨true, ["t"]⟩ UnpackOptions.new
    (FNode.dir [("t", FNode.dir [])]) rfl

/-- C4: an entry whose file name is the opaque marker `.wh..wh..opq` is
recognized and produces no deletion at all: no effect, no error, the
filesystem unchanged. -/
theorem c4_opaque_marker_no_deletion (target : RPath) (fs : FNode)
    (e : Entry) (h : e.path.fileName = some ".wh..wh..opq") :
    resolveEntry target fs e = ⟨fs, [], none⟩ := by
  unfold resolveEntry
  rw [h]
  rfl

/-- Witness for C4: an opaque marker inside directory `d`. -/
theorem c4_opaque_marker_no_deletion_witness :
    resolveEntry ⟨true, ["t"]⟩ (FNode.dir [("t", FNode.dir [])])
      ⟨⟨false, ["d", ".wh..wh..opq"]⟩, EntryData.file "", 0, []⟩ =
      ⟨FNode.dir [("t", FNode.dir [])], [], none⟩ :=
  c4_opaque_marker_no_deletion ⟨true, ["t"]⟩ (FNode.dir [("t", FNode.dir [])])
    ⟨⟨false, ["d", ".wh..wh..opq"]⟩, EntryData.file "", 0, []⟩ rfl

/-- A recursive removal fails exactly like the lookup does: a path that
does not exist cannot be removed. -/
theorem removeAll_eq_none_of_lookup_eq_none :
    ∀ (p : List String) (n : FNode), n.lookup p = none → n.removeAll p = none := by
  intro p
  induction p with
  | nil => intro n h; cases n <;> rfl
  | cons c rest ih =>
    intro n h
    cases n with
    | file content meta => rfl
    | dir cs =>
      cases rest with
      | nil =>
        simp only [FNode.lookup] at h
        simp only [FNode.removeAll]
        cases hfind : cs.find? (fun q => decide (q.1 = c)) with
        | some q => rw [hfind] at h; simp [FNode.lookup] at h
        | none => rfl
      | cons c2 r2 =>
        simp only [FNode.lookup] at h
        simp only [FNode.removeAll]
        cases hfind : cs.find? (fun q => decide (q.1 = c)) with
        | some q =>
          rw [hfind] at h
          simp only at h
          simp only [ih _ h]
        | none => rfl

/-- C1 (amended): for a whiteout entry (name starting with `.wh.`, not
the opaque marker), the resolver removes exactly the two paths of
`whiteoutPaths`: `target/./parent/<shadowed-name>` and
`target/./parent/<marker-name>` — where the shadowed name is the file
name with every leading `.wh.` occurrence stripped (Rust
`trim_start_matches` strips the prefix repeatedly, not once).  When both
recursive removals succeed the entry yields exactly those two removal
effects, in that order, and no error. -/
theorem c1_whiteout_shadow_removal (target : RPath) (fs fs1 fs2 : FNode)
    (e : Entry) (fname : String)
    (hf : e.path.fileName = some fname)
    (hopq : ¬ fname = ".wh..wh..opq")
    (hwh : strStartsWith fname ".wh." = true)
    (h1 : fs.removeAll
        (resolveComps (whiteoutPaths target e fname).1.components) = some fs1)
    (h2 : fs1.removeAll
        (resolveComps (whiteoutPaths target e fname).2.components) = some fs2) :
    (whiteoutPaths target e fname).1 =
      (target.join
        ⟨false, "." :: (e.path.parent.getD ⟨true, []⟩).components⟩).push
        (trimStartMatches ".wh." fname) ∧
    (whiteoutPaths target e fname).2 =
      (target.join
        ⟨false, "." :: (e.path.parent.getD ⟨true, []⟩).components⟩).push
        fname ∧
    resolveEntry target fs e =
      ⟨fs2, [Effect.remove (whiteoutPaths target e fname).1,
             Effect.remove (whiteoutPaths target e fname).2], none⟩ := by
  refine ⟨rfl, rfl, ?_⟩
  unfold resolveEntry
  rw [hf]
  simp only [if_neg hopq, hwh, if_true, h1, h2]

/-- Witness for C1: removing `foo` shadowed by `.wh.foo` inside `/t`. -/
theorem c1_whiteout_shadow_removal_witness :
    (whiteoutPaths ⟨true, ["t"]⟩
        ⟨⟨false, [".wh.foo"]⟩, EntryData.file "", 0, []⟩ ".wh.foo").1 =
      ((⟨true, ["t"]⟩ : RPath).join
        ⟨false, "." ::
          ((⟨false, [".wh.foo"]⟩ : RPath).parent.getD ⟨true, []⟩).components⟩).push
        (trimStartMatches ".wh." ".wh.foo") ∧
    (whiteoutPaths ⟨true, ["t"]⟩
        ⟨⟨false, [".wh.foo"]⟩, EntryData.file "", 0, []⟩ ".wh.foo").2 =
      ((⟨true, ["t"]⟩ : RPath).join
        ⟨false, "." ::
          ((⟨false, [".wh.foo"]⟩ : RPath).parent.getD ⟨true, []⟩).components⟩).push
        ".wh.foo" ∧
    resolveEntry ⟨true, ["t"]⟩
        (FNode.dir [("t", FNode.dir
          [("foo", FNode.file "x" ⟨none, []⟩),
           (".wh.foo", FNode.file "" ⟨none, []⟩)])])
        ⟨⟨false, [".wh.foo"]⟩, EntryData.file "", 0, []⟩ =
      ⟨FNode.dir [("t", FNode.dir [])],
       [Effect.remove (whiteoutPaths ⟨true, ["t"]⟩
          ⟨⟨false, [".wh.foo"]⟩, EntryData.file "", 0, []⟩ ".wh.foo").1,
        Effect.remove (whiteoutPaths ⟨true, ["t"]⟩
          ⟨⟨false, [".wh.foo"]⟩, EntryData.file "", 0, []⟩ ".wh.foo").2],
       none⟩ :=
  c1_whiteout_shadow_removal ⟨true, ["t"]⟩
    (FNode.dir [("t", FNode.dir
      [("foo", FNode.file "x" ⟨none, []⟩),
       (".wh.foo", FNode.file "" ⟨none, []⟩)])])
    (FNode.dir [("t", FNode.dir [(".wh.foo", FNode.file "" ⟨none, []⟩)])])
    (FNode.dir [("t", FNode.dir [])])
    ⟨⟨false, [".wh.foo"]⟩, EntryData.file "", 0, []⟩ ".wh.foo"
    rfl (by decide) rfl rfl rfl

/-- Counterexample to C1 as stated: the claim says the shadowed name is
the remainder after stripping `.wh.` *once*, so for the marker
`.wh..wh.foo` it predicts removal of `target/./.wh.foo`.  The code strips
the prefix repeatedly and removes `target/./foo` instead: after the
entry resolves without error, `/t/.wh.foo` still exists, `/t/foo` is
gone, and no removal effect ever names `t/./.wh.foo`. -/
theorem c1_once_strip_counterexample :
    (resolveEntry ⟨true, ["t"]⟩
        (FNode.dir [("t", FNode.dir
          [("foo", FNode.file "x" ⟨none, []⟩),
           (".wh.foo", FNode.file "" ⟨none, []⟩),
           (".wh..wh.foo", FNode.file "" ⟨none, []⟩)])])
        ⟨⟨false, [".wh..wh.foo"]⟩, EntryData.file "", 0, []⟩).err = none ∧
    (resolveEntry ⟨true, ["t"]⟩
        (FNode.dir [("t", FNode.dir
          [("foo", FNode.file "x" ⟨none, []⟩),
           (".wh.foo", FNode.file "" ⟨none, []⟩),
           (".wh..wh.foo", FNode.file "" ⟨none, []⟩)])])
        ⟨⟨false, [".wh..wh.foo"]⟩, EntryData.file "", 0, []⟩).fs.lookup
      ["t", ".wh.foo"] = some (FNode.file "" ⟨none, []⟩) ∧
    (resolveEntry ⟨true, ["t"]⟩
        (FNode.dir [("t", FNode.dir
          [("foo", FNode.file "x" ⟨none, []⟩),
           (".wh.foo", FNode.file "" ⟨none, []⟩),
           (".wh..wh.foo", FNode.file "" ⟨none, []⟩)])])
        ⟨⟨false, [".wh..wh.foo"]⟩, EntryData.file "", 0, []⟩).fs.lookup
      ["t", "foo"] = none ∧
    (⟨true, ["t", ".", ".wh.foo"]⟩ : RPath) ∉
      ((resolveEntry ⟨true, ["t"]⟩
        (FNode.dir [("t", FNode.dir
          [("foo", FNode.file "x" ⟨none, []⟩),
           (".wh.foo", FNode.file "" ⟨none, []⟩),
           (".wh..wh.foo", FNode.file "" ⟨none, []⟩)])])
        ⟨⟨false, [".wh..wh.foo"]⟩, EntryData.file "", 0, []⟩).trace.map
          Effect.path) :=
  ⟨rfl, rfl, rfl, by decide⟩

/-- C5: a whiteout marker whose shadowed path does not exist at
resolution time makes the resolver fail with the wrapped I/O error — the
deletion is not silently skipped, and the whole entry list aborts on that
entry whatever follows it. -/
theorem c5_missing_shadowed_path_errors (target : RPath) (fs : FNode)
    (e : Entry) (rest : List Entry) (fname : String)
    (hf : e.path.fileName = some fname)
    (hopq : ¬ fname = ".wh..wh..opq")
    (hwh : strStartsWith fname ".wh." = true)
    (hmiss : fs.lookup
        (resolveComps (whiteoutPaths target e fname).1.components) = none) :
    resolveEntry target fs e =
      ⟨fs, [], some (RenderError.io "remove_dir_all")⟩ ∧
    resolveEntries target (e :: rest) fs =
      ⟨fs, [], some (RenderError.io "remove_dir_all")⟩ := by
  have hrm := removeAll_eq_none_of_lookup_eq_none _ _ hmiss
  have h1 : resolveEntry target fs e =
      ⟨fs, [], some (RenderError.io "remove_dir_all")⟩ := by
    unfold resolveEntry
    rw [hf]
    simp only [if_neg hopq, hwh, if_true, hrm]
  refine ⟨h1, ?_⟩
  simp only [resolveEntries, h1]

/-- Witness for C5: `.wh.bar` with no `bar` under `/t`. -/
theorem c5_missing_shadowed_path_errors_witness :
    resolveEntry ⟨true, ["t"]⟩
        (FNode.dir [("t", FNode.dir
          [(".wh.bar", FNode.file "" ⟨none, []⟩)])])
        ⟨⟨false, [".wh.bar"]⟩, EntryData.file "", 0, []⟩ =
      ⟨FNode.dir [("t", FNode.dir
          [(".wh.bar", FNode.file "" ⟨none, []⟩)])], [],
        some (RenderError.io "remove_dir_all")⟩ ∧
    resolveEntries ⟨true, ["t"]⟩
        [⟨⟨false, [".wh.bar"]⟩, EntryData.file "", 0, []⟩]
        (FNode.dir [("t", FNode.dir
          [(".wh.bar", FNode.file "" ⟨none, []⟩)])]) =
      ⟨FNode.dir [("t", FNode.dir
          [(".wh.bar", FNode.file "" ⟨none, []⟩)])], [],
        some (RenderError.io "remove_dir_all")⟩ :=
  c5_missing_shadowed_path_errors ⟨true, ["t"]⟩
    (FNode.dir [("t", FNode.dir [(".wh.bar", FNode.file "" ⟨none, []⟩)])])
    ⟨⟨false, [".wh.bar"]⟩, EntryData.file "", 0, []⟩ [] ".wh.bar"
    rfl (by decide) rfl rfl

/-- Helper for C6: a successful layer loop satisfies the per-layer
extract-then-resolve ordering contract. -/
theorem unpackGo_phased (opts : UnpackOptions) (target : RPath) :
    ∀ (layers : List Layer) (fs : FNode),
      (unpackGo opts target layers fs).err = none →
      PhasedRun opts target layers fs (unpackGo opts target layers fs).trace
        (unpackGo opts target layers fs).fs := by
  intro layers
  induction layers with
  | nil => intro fs _; exact PhasedRun.nil fs
  | cons l rest ih =>
    intro fs h
    cases l with
    | none => simp [unpackGo, applyLayer] at h
    | some entries =>
      rcases hres : resolveEntries target entries
          (extractLayer opts target entries fs).1 with ⟨rfs, rtr, rerr⟩
      have happ : applyLayer opts target (some entries) fs =
          ⟨rfs, (extractLayer opts target entries fs).2 ++ rtr, rerr⟩ := by
        simp [applyLayer, hres]
      cases rerr with
      | some er =>
        rw [show unpackGo opts target (some entries :: rest) fs =
            ⟨rfs, (extractLayer opts target entries fs).2 ++ rtr, some er⟩ from
          by simp [unpackGo, happ]] at h
        exact Option.noConfusion h
      | none =>
        have hgo : unpackGo opts target (some entries :: rest) fs =
            ⟨(unpackGo opts target rest rfs).fs,
             ((extractLayer opts target entries fs).2 ++ rtr) ++
               (unpackGo opts target rest rfs).trace,
             (unpackGo opts target rest rfs).err⟩ := by
          simp [unpackGo, happ]
        rw [hgo] at h ⊢
        exact PhasedRun.cons entries rest fs rfs
          (unpackGo opts target rest rfs).fs rtr
          (unpackGo opts target rest rfs).trace hres (ih rfs h)

/-- C6: whenever `_unpack` succeeds, its effect trace and final
filesystem satisfy the spec's control-flow contract `PhasedRun`: layers
are processed strictly in ascending input order, each layer's whole
extraction trace precedes any whiteout deletion of that layer, and a
layer is fully extracted and resolved before the next layer contributes
any effect. -/
theorem c6_extract_then_resolve_order (opts : UnpackOptions) (target : RPath)
    (layers : List Layer) (fs : FNode)
    (h : (_unpack layers target opts fs).err = none) :
    PhasedRun opts target layers fs (_unpack layers target opts fs).trace
      (_unpack layers target opts fs).fs := by
  by_cases hv : (target.absolute && existsAt fs target && isDirAt fs target) = true
  · have hu : _unpack layers target opts fs = unpackGo opts target layers fs := by
      unfold _unpack; simp [hv]
    rw [hu] at h ⊢
    exact unpackGo_phased opts target layers fs h
  · exfalso
    have : _unpack layers target opts fs =
        ⟨fs, [], some (RenderError.wrongTargetPath target)⟩ := by
      unfold _unpack; simp [hv]
    rw [this] at h
    exact Option.noConfusion h

/-- Witness for C6: a successful one-layer run. -/
theorem c6_extract_then_resolve_order_witness :
    PhasedRun UnpackOptions.new ⟨true, ["t"]⟩ [some []]
      (FNode.dir [("t", FNode.dir [])])
      (_unpack [some []] ⟨true, ["t"]⟩ UnpackOptions.new
        (FNode.dir [("t", FNode.dir [])])).trace
      (_unpack [some []] ⟨true, ["t"]⟩ UnpackOptions.new
        (FNode.dir [("t", FNode.dir [])])).fs :=
  c6_extract_then_resolve_order UnpackOptions.new ⟨true, ["t"]⟩ [some []]
    (FNode.dir [("t", FNode.dir [])]) rfl

/-- Helper for C7: an erroring layer loop stops at the first failing
layer, keeps everything already applied and reports that error. -/
theorem unpackGo_first_error (opts : UnpackOptions) (target : RPath) :
    ∀ (layers : List Layer) (fs : FNode) (e : RenderError),
      (unpackGo opts target layers fs).err = some e →
      ∃ k : Fin layers.length,
        (unpackGo opts target (layers.take k.1) fs).err = none ∧
        (applyLayer opts target (layers.get k)
            (unpackGo opts target (layers.take k.1) fs).fs).err = some e ∧
        (unpackGo opts target layers fs).fs =
          (applyLayer opts target (layers.get k)
            (unpackGo opts target (layers.take k.1) fs).fs).fs ∧
        (unpackGo opts target layers fs).trace =
          (unpackGo opts target (layers.take k.1) fs).trace ++
            (applyLayer opts target (layers.get k)
              (unpackGo opts target (layers.take k.1) fs).fs).trace := by
  intro layers
  induction layers with
  | nil => intro fs e h; simp [unpackGo] at h
  | cons l rest ih =>
    intro fs e h
    rcases happ : applyLayer opts target l fs with ⟨afs, atr, aerr⟩
    cases aerr with
    | some er =>
      have hgo : unpackGo opts target (l :: rest) fs = ⟨afs, atr, some er⟩ := by
        simp [unpackGo, happ]
      rw [hgo] at h ⊢
      obtain rfl : er = e := by simpa using h
      refine ⟨⟨0, by simp⟩, ?_, ?_, ?_, ?_⟩
      · rfl
      · show (applyLayer opts target l fs).err = some er
        rw [happ]
      · show afs = (applyLayer opts target l fs).fs
        rw [happ]
      · show atr = [] ++ (applyLayer opts target l fs).trace
        rw [happ]; rfl
    | none =>
      have hgo : unpackGo opts target (l :: rest) fs =
          ⟨(unpackGo opts target rest afs).fs,
           atr ++ (unpackGo opts target rest afs).trace,
           (unpackGo opts target rest afs).err⟩ := by
        simp [unpackGo, happ]
      rw [hgo] at h ⊢
      obtain ⟨k, hk1, hk2, hk3, hk4⟩ := ih afs e h
      have htake : ∀ m : Nat, unpackGo opts target ((l :: rest).take (m + 1)) fs =
          ⟨(unpackGo opts target (rest.take m) afs).fs,
           atr ++ (unpackGo opts target (rest.take m) afs).trace,
           (unpackGo opts target (rest.take m) afs).err⟩ := by
        intro m
        rw [List.take_succ_cons]
        simp [unpackGo, happ]
      refine ⟨⟨k.1 + 1, Nat.succ_lt_succ k.2⟩, ?_, ?_, ?_, ?_⟩
      · rw [htake k.1]; exact hk1
      · rw [htake k.1]
        show (applyLayer opts target (rest.get k)
            (unpackGo opts target (rest.take k.1) afs).fs).err = some e
        exact hk2
      · rw [htake k.1]
        show (unpackGo opts target rest afs).fs =
          (applyLayer opts target (rest.get k)
            (unpackGo opts target (rest.take k.1) afs).fs).fs
        exact hk3
      · rw [htake k.1]
        show atr ++ (unpackGo opts target rest afs).trace =
          (atr ++ (unpackGo opts target (rest.take k.1) afs).trace) ++
            (applyLayer opts target (rest.get k)
              (unpackGo opts target (rest.take k.1) afs).fs).trace
        rw [hk4, List.append_assoc]

/-- C7: with a valid target, the first error anywhere in the layer loop
aborts the whole operation at the first failing layer `k`: all layers
before `k` succeeded, layer `k`'s step returns exactly the reported
error, the final filesystem is the intermediate state that failing step
left (nothing is rolled back), and the trace is exactly the effects of
the successful prefix followed by the failing step's partial effects —
layers after `k` contribute nothing. -/
theorem c7_first_error_aborts (opts : UnpackOptions) (target : RPath)
    (layers : List Layer) (fs : FNode) (e : RenderError)
    (hvalid : (target.absolute && existsAt fs target && isDirAt fs target) = true)
    (herr : (_unpack layers target opts fs).err = some e) :
    ∃ k : Fin layers.length,
      (unpackGo opts target (layers.take k.1) fs).err = none ∧
      (applyLayer opts target (layers.get k)
          (unpackGo opts target (layers.take k.1) fs).fs).err = some e ∧
      (_unpack layers target opts fs).fs =
        (applyLayer opts target (layers.get k)
          (unpackGo opts target (layers.take k.1) fs).fs).fs ∧
      (_unpack layers target opts fs).trace =
        (unpackGo opts target (layers.take k.1) fs).trace ++
          (applyLayer opts target (layers.get k)
            (unpackGo opts target (layers.take k.1) fs).fs).trace := by
  have hu : _unpack layers target opts fs = unpackGo opts target layers fs := by
    unfold _unpack; simp [hvalid]
  rw [hu] at herr ⊢
  exact unpackGo_first_error opts target layers fs e herr

/-- Witness for C7: a single undecodable layer fails with the wrapped
I/O error. -/
theorem c7_first_error_aborts_witness :
    ∃ k : Fin ([(none : Layer)].length),
      (unpackGo UnpackOptions.new ⟨true, ["t"]⟩ ([(none : Layer)].take k.1)
          (FNode.dir [("t", FNode.dir [])])).err = none ∧
      (applyLayer UnpackOptions.new ⟨true, ["t"]⟩ ([(none : Layer)].get k)
          (unpackGo UnpackOptions.new ⟨true, ["t"]⟩ ([(none : Layer)].take k.1)
            (FNode.dir [("t", FNode.dir [])])).fs).err =
        some (RenderError.io "gzip") ∧
      (_unpack [(none : Layer)] ⟨true, ["t"]⟩ UnpackOptions.new
          (FNode.dir [("t", FNode.dir [])])).fs =
        (applyLayer UnpackOptions.new ⟨true, ["t"]⟩ ([(none : Layer)].get k)
          (unpackGo UnpackOptions.new ⟨true, ["t"]⟩ ([(none : Layer)].take k.1)
            (FNode.dir [("t", FNode.dir [])])).fs).fs ∧
      (_unpack [(none : Layer)] ⟨true, ["t"]⟩ UnpackOptions.new
          (FNode.dir [("t", FNode.dir [])])).trace =
        (unpackGo UnpackOptions.new ⟨true, ["t"]⟩ ([(none : Layer)].take k.1)
            (FNode.dir [("t", FNode.dir [])])).trace ++
          (applyLayer UnpackOptions.new ⟨true, ["t"]⟩ ([(none : Layer)].get k)
            (unpackGo UnpackOptions.new ⟨true, ["t"]⟩
              ([(none : Layer)].take k.1)
              (FNode.dir [("t", FNode.dir [])])).fs).trace :=
  c7_first_error_aborts UnpackOptions.new ⟨true, ["t"]⟩ [none]
    (FNode.dir [("t", FNode.dir [])]) (RenderError.io "gzip") rfl rfl

/-- A list leads with itself extended by anything. -/
theorem leadsWith_append_right (t : List String) :
    ∀ r : List String, leadsWith t (t ++ r) = true := by
  induction t with
  | nil => intro r; rfl
  | cons a as ih => intro r; simp [leadsWith, ih r]

/-- Folding the resolution step over components free of `..` just appends
them (minus the `.` skips). -/
theorem foldl_resolve_no_dotdot :
    ∀ (r : List String) (acc : List String), (∀ c ∈ r, ¬ c = "..") →
      r.foldl
        (fun acc c =>
          if c = "." then acc
          else if c = ".." then acc.dropLast
          else acc ++ [c]) acc
        = acc ++ r.filter (fun c => ¬ c = ".") := by
  intro r
  induction r with
  | nil => intro acc _; simp
  | cons c cs ih =>
    intro acc h
    have hc : ¬ c = ".." := h c (List.mem_cons_self c cs)
    have hcs : ∀ x ∈ cs, ¬ x = ".." := fun x hx => h x (List.mem_cons_of_mem c hx)
    by_cases hdot : c = "."
    · subst hdot
      simp [List.foldl_cons, ih acc hcs, List.filter_cons]
    · simp only [List.foldl_cons, if_neg hdot, if_neg hc, ih (acc ++ [c]) hcs,
        List.filter_cons]
      simp [hdot]

/-- The resolution `resolveComps` distributes over an append whose right part has no
`..` component. -/
theorem resolveComps_append_no_dotdot (t r : List String)
    (h : ∀ c ∈ r, ¬ c = "..") :
    resolveComps (t ++ r) = resolveComps t ++ r.filter (fun c => ¬ c = ".") := by
  unfold resolveComps
  rw [List.foldl_append]
  exact foldl_resolve_no_dotdot r _ h

/-- Core containment argument: a path whose components extend the
target's by `..`-free components stays under the target after
resolution. -/
theorem underTarget_of_append (target p : RPath) (r : List String)
    (habs : p.absolute = target.absolute)
    (hcomp : p.components = target.components ++ r)
    (h : ∀ c ∈ r, ¬ c = "..") : underTarget target p = true := by
  unfold underTarget
  rw [habs, hcomp, resolveComps_append_no_dotdot _ _ h]
  simp [leadsWith_append_right]

/-- The resolver's `target/./parent/<name>` construction stays under the
target whenever the parent components and the appended name are free of
`..`. -/
theorem relJoin_under (target : RPath) (pc : List String) (name : String)
    (hpc : ∀ c ∈ pc, ¬ c = "..") (hname : ¬ name = "..") :
    underTarget target ((target.join ⟨false, "." :: pc⟩).push name) = true := by
  have hmem : ∀ c ∈ "." :: pc, ¬ c = ".." := by
    intro c hc
    rcases List.mem_cons.mp hc with h1 | h2
    · subst h1; decide
    · exact hpc c h2
  unfold RPath.join RPath.push
  by_cases hn : name = ""
  · simp only [hn, if_pos rfl, if_neg (by decide : ¬ (false = true))]
    exact underTarget_of_append target _ ("." :: pc) rfl rfl hmem
  · simp only [if_neg hn, if_neg (by decide : ¬ (false = true))]
    refine underTarget_of_append target _ (("." :: pc) ++ [name]) rfl ?_ ?_
    · simp [List.append_assoc]
    · intro c hc
      rcases List.mem_append.mp hc with h1 | h2
      · exact hmem c h1
      · rw [List.mem_singleton.mp h2]; exact hname

/-- Unpacking a `safeEntry` into its four guarantees. -/
theorem safeEntry_spec (e : Entry) (h : safeEntry e = true) :
    e.path.absolute = false ∧
    (∀ c ∈ e.path.components, ¬ c = "..") ∧
    (∀ c ∈ e.path.components, ¬ c = ".") ∧
    (∀ c ∈ e.path.components, ¬ trimStartMatches ".wh." c = "..") := by
  unfold safeEntry at h
  rw [Bool.and_eq_true] at h
  obtain ⟨h1, h2⟩ := h
  have hall := List.all_eq_true.mp h2
  refine ⟨by simpa using h1, ?_, ?_, ?_⟩ <;>
    · intro c hc
      have := hall c hc
      simp only [Bool.and_eq_true, Bool.not_eq_true', decide_eq_false_iff_not]
        at this
      tauto

/-- A file name comes from the path's components and is neither `..` nor
`.`. -/
theorem fileName_some_spec (p : RPath) (fname : String)
    (h : p.fileName = some fname) :
    fname ∈ p.components ∧ ¬ fname = ".." ∧ ¬ fname = "." := by
  unfold RPath.fileName at h
  cases hgl : p.components.getLast? with
  | none => rw [hgl] at h; exact Option.noConfusion h
  | some c =>
    rw [hgl] at h
    have h2 : (if c = ".." ∨ c = "." then none else some c) = some fname := h
    by_cases hbad : c = ".." ∨ c = "."
    · rw [if_pos hbad] at h2; exact Option.noConfusion h2
    · rw [if_neg hbad] at h2
      obtain rfl : c = fname := by injection h2
      push_neg at hbad
      have hmem : c ∈ p.components := by
        obtain ⟨hne, heq⟩ :=
          List.mem_getLast?_eq_getLast (l := p.components) (x := c)
            (by rw [hgl]; rfl)
        rw [heq]
        exact List.getLast_mem hne
      exact ⟨hmem, hbad.1, hbad.2⟩

/-- A nonempty path's defaulted parent components are the path's
components without the last. -/
theorem parent_getD_components (p : RPath) (h : p.components ≠ []) :
    (p.parent.getD ⟨true, []⟩).components = p.components.dropLast := by
  unfold RPath.parent
  cases hcs : p.components with
  | nil => exact absurd hcs h
  | cons a as => simp

/-- Unfolding of the whiteout resolver at an entry whose file name is
known. -/
theorem resolveEntry_eq_of_fileName (target : RPath) (fs : FNode) (e : Entry)
    (fname : String) (hfn : e.path.fileName = some fname) :
    resolveEntry target fs e =
      (if fname = ".wh..wh..opq" then ⟨fs, [], none⟩
      else if strStartsWith fname ".wh." then
        match fs.removeAll
            (resolveComps (whiteoutPaths target e fname).1.components) with
        | none => ⟨fs, [], some (RenderError.io "remove_dir_all")⟩
        | some fs1 =>
          match fs1.removeAll
              (resolveComps (whiteoutPaths target e fname).2.components) with
          | none =>
            ⟨fs1, [Effect.remove (whiteoutPaths target e fname).1],
              some (RenderError.io "remove_dir_all")⟩
          | some fs2 =>
            ⟨fs2, [Effect.remove (whiteoutPaths target e fname).1,
                   Effect.remove (whiteoutPaths target e fname).2], none⟩
      else ⟨fs, [], none⟩ : Step) := by
  unfold resolveEntry
  rw [hfn]

/-- Every effect of the whiteout resolver on a safe entry stays under the
target. -/
theorem resolveEntry_under (target : RPath) (fs : FNode) (e : Entry)
    (h : safeEntry e = true) :
    (resolveEntry target fs e).trace.all
      (fun eff => underTarget target (Effect.path eff)) = true := by
  obtain ⟨habs, hdd, hdot, htrim⟩ := safeEntry_spec e h
  cases hfn : e.path.fileName with
  | none =>
    have hnone : resolveEntry target fs e = ⟨fs, [], none⟩ := by
      unfold resolveEntry; rw [hfn]
    rw [hnone]; rfl
  | some fname =>
    rw [resolveEntry_eq_of_fileName target fs e fname hfn]
    obtain ⟨hmem, hfne, _⟩ := fileName_some_spec e.path fname hfn
    have hne : e.path.components ≠ [] := by
      intro hnil
      rw [hnil] at hmem
      exact List.not_mem_nil fname hmem
    have hpc : ∀ c ∈ (e.path.parent.getD ⟨true, []⟩).components, ¬ c = ".." := by
      rw [parent_getD_components e.path hne]
      intro c hc
      exact hdd c (List.dropLast_subset e.path.components hc)
    have hp1 : underTarget target (whiteoutPaths target e fname).1 = true := by
      show underTarget target
        ((target.join
          ⟨false, "." :: (e.path.parent.getD ⟨true, []⟩).components⟩).push
          (trimStartMatches ".wh." fname)) = true
      exact relJoin_under target _ _ hpc (htrim fname hmem)
    have hp2 : underTarget target (whiteoutPaths target e fname).2 = true := by
      show underTarget target
        ((target.join
          ⟨false, "." :: (e.path.parent.getD ⟨true, []⟩).components⟩).push
          fname) = true
      exact relJoin_under target _ _ hpc hfne
    by_cases hopq : fname = ".wh..wh..opq"
    · simp [hopq]
    · rw [if_neg hopq]
      by_cases hwh : strStartsWith fname ".wh." = true
      · simp only [hwh, if_true]
        cases hr1 : fs.removeAll
            (resolveComps (whiteoutPaths target e fname).1.components) with
        | none => rfl
        | some fs1 =>
          cases hr2 : fs1.removeAll
              (resolveComps (whiteoutPaths target e fname).2.components) with
          | none => simp [hr2, List.all_cons, Effect.path, hp1]
          | some fs2 => simp [hr2, List.all_cons, Effect.path, hp1, hp2]
      · simp [hwh]

/-- The single write of a safe entry's extraction stays under the
target. -/
theorem extractEntry_under (opts : UnpackOptions) (target : RPath)
    (fs : FNode) (e : Entry) (h : safeEntry e = true) :
    (extractEntry opts target fs e).2.all
      (fun eff => underTarget target (Effect.path eff)) = true := by
  obtain ⟨habs, hdd, _, _⟩ := safeEntry_spec e h
  have hj : target.join e.path =
      ⟨target.absolute, target.components ++ e.path.components⟩ := by
    unfold RPath.join
    rw [habs]
    rfl
  have hu : underTarget target (target.join e.path) = true :=
    underTarget_of_append target _ e.path.components
      (by rw [hj]) (by rw [hj]) hdd
  show ([Effect.write (target.join e.path)].all
    (fun eff => underTarget target (Effect.path eff))) = true
  simp [List.all_cons, Effect.path, hu]

/-- Every write of a safe layer's extraction stays under the target. -/
theorem extractLayer_under (opts : UnpackOptions) (target : RPath) :
    ∀ (es : List Entry) (fs : FNode), es.all safeEntry = true →
      (extractLayer opts target es fs).2.all
        (fun eff => underTarget target (Effect.path eff)) = true := by
  intro es
  induction es with
  | nil => intro fs _; rfl
  | cons e rest ih =>
    intro fs h
    rw [List.all_cons, Bool.and_eq_true] at h
    obtain ⟨he, hrest⟩ := h
    show ((extractEntry opts target fs e).2 ++
        (extractLayer opts target rest (extractEntry opts target fs e).1).2).all
        (fun eff => underTarget target (Effect.path eff)) = true
    rw [List.all_append, extractEntry_under opts target fs e he,
      ih (extractEntry opts target fs e).1 hrest]
    rfl

/-- Every deletion of the whiteout loop over safe entries stays under the
target. -/
theorem resolveEntries_under (target : RPath) :
    ∀ (es : List Entry) (fs : FNode), es.all safeEntry = true →
      (resolveEntries target es fs).trace.all
        (fun eff => underTarget target (Effect.path eff)) = true := by
  intro es
  induction es with
  | nil => intro fs _; rfl
  | cons e rest ih =>
    intro fs h
    rw [List.all_cons, Bool.and_eq_true] at h
    obtain ⟨he, hrest⟩ := h
    rcases hs : resolveEntry target fs e with ⟨sfs, str, serr⟩
    have hstr : str.all (fun eff => underTarget target (Effect.path eff)) = true := by
      have := resolveEntry_under target fs e he
      rw [hs] at this
      exact this
    cases serr with
    | some er =>
      have hres : resolveEntries target (e :: rest) fs = ⟨sfs, str, some er⟩ := by
        simp [resolveEntries, hs]
      rw [hres]
      exact hstr
    | none =>
      have hres : resolveEntries target (e :: rest) fs =
          ⟨(resolveEntries target rest sfs).fs,
           str ++ (resolveEntries target rest sfs).trace,
           (resolveEntries target rest sfs).err⟩ := by
        simp [resolveEntries, hs]
      rw [hres]
      show (str ++ (resolveEntries target rest sfs).trace).all
        (fun eff => underTarget target (Effect.path eff)) = true
      rw [List.all_append, hstr, ih sfs hrest]
      rfl

/-- Every effect of one layer's step on a safe layer stays under the
target. -/
theorem applyLayer_under (opts : UnpackOptions) (target : RPath) (l : Layer)
    (fs : FNode) (h : safeLayer l = true) :
    (applyLayer opts target l fs).trace.all
      (fun eff => underTarget target (Effect.path eff)) = true := by
  cases l with
  | none => rfl
  | some es =>
    have hes : es.all safeEntry = true := h
    show ((extractLayer opts target es fs).2 ++
        (resolveEntries target es (extractLayer opts target es fs).1).trace).all
        (fun eff => underTarget target (Effect.path eff)) = true
    rw [List.all_append, extractLayer_under opts target es fs hes,
      resolveEntries_under target es (extractLayer opts target es fs).1 hes]
    rfl

/-- Every effect of the whole layer loop on safe layers stays under the
target. -/
theorem unpackGo_under (opts : UnpackOptions) (target : RPath) :
    ∀ (layers : List Layer) (fs : FNode), layers.all safeLayer = true →
      (unpackGo opts target layers fs).trace.all
        (fun eff => underTarget target (Effect.path eff)) = true := by
  intro layers
  induction layers with
  | nil => intro fs _; rfl
  | cons l rest ih =>
    intro fs h
    rw [List.all_cons, Bool.and_eq_true] at h
    obtain ⟨hl, hrest⟩ := h
    rcases happ : applyLayer opts target l fs with ⟨afs, atr, aerr⟩
    have hatr : atr.all (fun eff => underTarget target (Effect.path eff)) = true := by
      have := applyLayer_under opts target l fs hl
      rw [happ] at this
      exact this
    cases aerr with
    | some er =>
      have hgo : unpackGo opts target (l :: rest) fs = ⟨afs, atr, some er⟩ := by
        simp [unpackGo, happ]
      rw [hgo]
      exact hatr
    | none =>
      have hgo : unpackGo opts target (l :: rest) fs =
          ⟨(unpackGo opts target rest afs).fs,
           atr ++ (unpackGo opts target rest afs).trace,
           (unpackGo opts target rest afs).err⟩ := by
        simp [unpackGo, happ]
      rw [hgo]
      show (atr ++ (unpackGo opts target rest afs).trace).all
        (fun eff => underTarget target (Effect.path eff)) = true
      rw [List.all_append, hatr, ih afs hrest]
      rfl

/-- C3 (amended): for layers whose entries are safe — stored paths
relative, with no `..` or `.` components and no whiteout name stripping
to `..` — every write and every deletion of `_unpack` resolves to a path
under the target directory. -/
theorem c3_effects_within_target (opts : UnpackOptions) (target : RPath)
    (layers : List Layer) (fs : FNode)
    (hsafe : layers.all safeLayer = true) :
    (_unpack layers target opts fs).trace.all
      (fun eff => underTarget target (Effect.path eff)) = true := by
  unfold _unpack
  by_cases hv : (target.absolute && existsAt fs target && isDirAt fs target) = true
  · rw [if_neg (not_not_intro hv)]
    exact unpackGo_under opts target layers fs hsafe
  · rw [if_pos hv]
    rfl

/-- Witness for C3: a one-file layer extracted into `/t`. -/
theorem c3_effects_within_target_witness :
    ([some [⟨⟨false, ["a"]⟩, EntryData.file "hi", 420, []⟩]].all safeLayer
      = true) ∧
    (_unpack [some [⟨⟨false, ["a"]⟩, EntryData.file "hi", 420, []⟩]]
        ⟨true, ["t"]⟩ UnpackOptions.new
        (FNode.dir [("t", FNode.dir [])])).trace.all
      (fun eff => underTarget ⟨true, ["t"]⟩ (Effect.path eff)) = true :=
  ⟨by decide,
   c3_effects_within_target UnpackOptions.new ⟨true, ["t"]⟩
     [some [⟨⟨false, ["a"]⟩, EntryData.file "hi", 420, []⟩]]
     (FNode.dir [("t", FNode.dir [])]) (by decide)⟩

/-- Counterexample to C3 as stated: a whiteout entry `../.wh.foo` whose
parent climbs out of the target.  The run succeeds, its trace contains a
removal at `/t/./../foo` — which resolves to `/foo`, outside `/t` — and
the root file `/foo` is indeed gone afterwards. -/
theorem c3_traversal_counterexample :
    (_unpack [some [⟨⟨false, ["..", ".wh.foo"]⟩, EntryData.file "", 0, []⟩]]
        ⟨true, ["t"]⟩ UnpackOptions.new
        (FNode.dir [("t", FNode.dir []),
                    ("foo", FNode.file "x" ⟨none, []⟩)])).trace.all
      (fun eff => underTarget ⟨true, ["t"]⟩ (Effect.path eff)) = false ∧
    Effect.remove ⟨true, ["t", ".", "..", "foo"]⟩ ∈
      (_unpack [some [⟨⟨false, ["..", ".wh.foo"]⟩, EntryData.file "", 0, []⟩]]
        ⟨true, ["t"]⟩ UnpackOptions.new
        (FNode.dir [("t", FNode.dir []),
                    ("foo", FNode.file "x" ⟨none, []⟩)])).trace ∧
    underTarget ⟨true, ["t"]⟩ ⟨true, ["t", ".", "..", "foo"]⟩ = false ∧
    (_unpack [some [⟨⟨false, ["..", ".wh.foo"]⟩, EntryData.file "", 0, []⟩]]
        ⟨true, ["t"]⟩ UnpackOptions.new
        (FNode.dir [("t", FNode.dir []),
                    ("foo", FNode.file "x" ⟨none, []⟩)])).fs.lookup ["foo"]
      = none ∧
    (_unpack [some [⟨⟨false, ["..", ".wh.foo"]⟩, EntryData.file "", 0, []⟩]]
        ⟨true, ["t"]⟩ UnpackOptions.new
        (FNode.dir [("t", FNode.dir []),
                    ("foo", FNode.file "x" ⟨none, []⟩)])).err = none :=
  ⟨rfl, by decide, rfl, rfl, rfl⟩

/-- The resolver's `target.join("./parent").join(name)` construction
never replaces the target (the `"./"` prefix keeps the argument
relative): the result keeps the target's absolute flag and starts with
the target's components verbatim. -/
theorem join_push_syntactic (target : RPath) (pc : List String)
    (name : String) :
    ((target.join ⟨false, "." :: pc⟩).push name).absolute = target.absolute ∧
    leadsWith target.components
      ((target.join ⟨false, "." :: pc⟩).push name).components = true := by
  have hj : target.join ⟨false, "." :: pc⟩ =
      ⟨target.absolute, target.components ++ ("." :: pc)⟩ := rfl
  rw [hj]
  unfold RPath.push
  by_cases hn : name = ""
  · rw [if_pos hn]
    exact ⟨rfl, leadsWith_append_right target.components _⟩
  · rw [if_neg hn]
    refine ⟨rfl, ?_⟩
    show leadsWith target.components
      ((target.components ++ ("." :: pc)) ++ [name]) = true
    rw [List.append_assoc]
    exact leadsWith_append_right target.components _

/-- C10: whiteout deletion paths are always anchored at the target root.
First part: every removal effect the resolver can ever emit — for any
entry, even one whose stored path is absolute — carries the target's
absolute flag and literally starts with the target's components, because
the parent is re-rooted with the `"./"` prefix before joining.  Second
part: the re-rooted join itself never lets an absolute parent replace
the target. -/
theorem c10_removal_paths_stay_in_target :
    (∀ (target : RPath) (fs : FNode) (e : Entry),
      (resolveEntry target fs e).trace.all
        (fun eff =>
          ((Effect.path eff).absolute == target.absolute) &&
          leadsWith target.components (Effect.path eff).components) = true) ∧
    (∀ (target : RPath) (pc : List String) (name : String),
      ((target.join ⟨false, "." :: pc⟩).push name).absolute =
        target.absolute ∧
      leadsWith target.components
        ((target.join ⟨false, "." :: pc⟩).push name).components = true) := by
  constructor
  · intro target fs e
    cases hfn : e.path.fileName with
    | none =>
      have hnone : resolveEntry target fs e = ⟨fs, [], none⟩ := by
        unfold resolveEntry; rw [hfn]
      rw [hnone]; rfl
    | some fname =>
      rw [resolveEntry_eq_of_fileName target fs e fname hfn]
      have key1 : (((whiteoutPaths target e fname).1.absolute ==
            target.absolute) &&
          leadsWith target.components
            (whiteoutPaths target e fname).1.components) = true := by
        obtain ⟨h1, h2⟩ := join_push_syntactic target
          (e.path.parent.getD ⟨true, []⟩).components
          (trimStartMatches ".wh." fname)
        show (((target.join
            ⟨false, "." :: (e.path.parent.getD ⟨true, []⟩).components⟩).push
              (trimStartMatches ".wh." fname)).absolute == target.absolute &&
          leadsWith target.components
            ((target.join
              ⟨false, "." :: (e.path.parent.getD ⟨true, []⟩).components⟩).push
                (trimStartMatches ".wh." fname)).components) = true
        rw [h1, h2]
        simp
      have key2 : (((whiteoutPaths target e fname).2.absolute ==
            target.absolute) &&
          leadsWith target.components
            (whiteoutPaths target e fname).2.components) = true := by
        obtain ⟨h1, h2⟩ := join_push_syntactic target
          (e.path.parent.getD ⟨true, []⟩).components fname
        show (((target.join
            ⟨false, "." :: (e.path.parent.getD ⟨true, []⟩).components⟩).push
              fname).absolute == target.absolute &&
          leadsWith target.components
            ((target.join
              ⟨false, "." :: (e.path.parent.getD ⟨true, []⟩).components⟩).push
                fname).components) = true
        rw [h1, h2]
        simp
      by_cases hopq : fname = ".wh..wh..opq"
      · simp [hopq]
      · rw [if_neg hopq]
        by_cases hwh : strStartsWith fname ".wh." = true
        · rw [if_pos hwh]
          cases hr1 : fs.removeAll
              (resolveComps (whiteoutPaths target e fname).1.components) with
          | none => rfl
          | some fs1 =>
            cases hr2 : fs1.removeAll
                (resolveComps (whiteoutPaths target e fname).2.components) with
            | none => simp [hr2, List.all_cons, Effect.path, key1]
            | some fs2 =>
              simp [hr2, List.all_cons, Effect.path, key1, key2]
        · rw [if_neg hwh]; rfl
  · intro target pc name
    exact join_push_syntactic target pc name
